import Mathlib

/-!
Shallow embedding of `DbQuotaNoLockDriver` (neutron/db/quota/driver_nolock.py):
the lock-free quota reservation algorithm (`make_reservation`) and reservation
cancellation (`cancel_reservation`), together with the external collaborators
the driver calls into (`quota_api.remove_expired_reservations`,
`quota_api.create_reservation`, `quota_api.remove_reservation`, the per-resource
counting capability and the limit provider), modelled from the specification
where their code is not part of the sources.

Resource kinds and tenants are strings, deltas are natural numbers, limits are
integers (a negative limit means "unlimited").
-/

/-- A delta request or a reservation's stored resource set: a finite map from
resource kind to a requested increment, represented as an association list
(a Python `dict` — keys are unique in every map the driver receives). -/
abbrev DeltaMap := List (String × Nat)

/-- A reservation row: unique id, owning tenant, per-resource delta map and
expiry time.  Modelled from the spec: the Reservation Store persists exactly
these fields; `create_reservation` assigns the id and the expiry. -/
structure Reservation where
  rid : Nat
  tenant : String
  deltas : DeltaMap
  expiry : Nat
deriving DecidableEq, Repr

/-- The observable state of the backing store: the reservation table, the
committed resource counts per (tenant, resource kind), the current time, the
next fresh reservation id, and the set of (tenant, resource) aggregates marked
dirty.  Modelled from the spec: the Reservation Store and the Resource
Counter's committed counts are external transactional state. -/
structure QuotaState where
  reservations : List Reservation
  committed : List ((String × String) × Nat)
  now : Nat
  nextId : Nat
  dirty : List (String × String)
deriving DecidableEq, Repr

/-- Sum of the deltas held for `(tenant, res)` by currently valid
(non-expired) reservations.  Modelled from the spec: the Resource Counter,
when asked to include reservations, adds units held by currently valid
reservations for that tenant and kind. -/
def reservedSum (resvs : List Reservation) (tenant res : String) (now : Nat) : Nat :=
  ((resvs.filter fun rv => rv.tenant == tenant && decide (now < rv.expiry)).map
    fun rv => (rv.deltas.lookup res).getD 0).sum

/-- The counting capability of a resource kind, invoked by the driver as
`tracked_resource.count(context, None, project_id, count_db_registers=True)`.
Modelled from the spec: counts currently committed units for the tenant plus
units held by currently valid (non-expired) reservations. -/
def count (st : QuotaState) (tenant res : String) : Nat :=
  (st.committed.lookup (tenant, res)).getD 0 + reservedSum st.reservations tenant res st.now

/-- `quota_api.remove_expired_reservations(context, tenant_id)`.  Modelled from
the spec: deletes every reservation of the tenant whose expiry time is at or
before the current time. -/
def remove_expired_reservations (st : QuotaState) (tenant : String) : QuotaState :=
  { st with reservations :=
      st.reservations.filter fun rv => !(rv.tenant == tenant && rv.expiry ≤ st.now) }

/-- `quota_api.create_reservation(context, project_id, deltas)`.  Modelled from
the spec: persists a new Reservation row holding the delta map it is given,
with a fresh unique id and expiry = now + ttl (the reservation time-to-live),
and returns it. -/
def create_reservation (st : QuotaState) (tenant : String) (deltas : DeltaMap)
    (ttl : Nat) : Reservation × QuotaState :=
  let rv : Reservation := ⟨st.nextId, tenant, deltas, st.now + ttl⟩
  (rv, { st with reservations := rv :: st.reservations, nextId := st.nextId + 1 })

/-- `quota_api.remove_reservation(context, reservation_id, set_dirty)`.
Modelled from the spec: deletes the reservation with the given id (a no-op
when absent); when `set_dirty` is set, marks the (tenant, resource) aggregates
named by the deleted reservation dirty. -/
def remove_reservation (st : QuotaState) (rid : Nat) (set_dirty : Bool) : QuotaState :=
  let found := st.reservations.filter fun rv => rv.rid == rid
  { st with
    reservations := st.reservations.filter fun rv => !(rv.rid == rid),
    dirty := if set_dirty then
        found.foldl (fun acc rv => acc ++ rv.deltas.map fun p => (rv.tenant, p.1)) st.dirty
      else st.dirty }

/-- Lexicographic comparison of character lists by code point: the order in
which Python's `sorted` arranges strings. -/
def lexLe : List Char → List Char → Bool
  | [], _ => true
  | _ :: _, [] => false
  | a :: as, b :: bs => if a < b then true else if b < a then false else lexLe as bs

/-- The string order used by `sorted(resources_over_limit)`: code-point
lexicographic, as Python compares strings. -/
def strle (a b : String) : Prop := lexLe a.data b.data = true

instance : DecidableRel strle := fun a b =>
  inferInstanceAs (Decidable (lexLe a.data b.data = true))

/-- The body of the quota check of `DbQuotaNoLockDriver.make_reservation`:
the resources appended to `resources_over_limit`.  A requested resource kind is
recorded over limit when it is not unlimited (so it survives the set
difference with `unlimited_resources`), it has a counting capability in the
`resources` catalog (otherwise the loop does `continue`), and
`limits[resource_name] < used_and_reserved + resource_num`. -/
def over_limit_resources (resources : List String) (limits : String → Int)
    (tenant : String) (deltas : DeltaMap) (st : QuotaState) : List String :=
  let unlimited := resources.filter fun r => limits r < 0
  let requested := (deltas.map Prod.fst).filter fun r => !unlimited.contains r
  requested.filter fun r =>
    resources.contains r &&
      decide (limits r < (count st tenant r : Int) + ((deltas.lookup r).getD 0 : Int))

/-- `DbQuotaNoLockDriver.make_reservation(context, project_id, resources,
deltas, plugin)`.  Inside one write transaction: fetch the tenant's limits for
the catalog's resource kinds, drop unlimited resources from checking, purge the
tenant's expired reservations, count used and reserved units for each remaining
requested resource kind that has a counting capability, and either raise
`OverQuota` with the sorted over-limit kinds (the transaction rolls back, so
the store is left as it was) or persist a reservation for the full requested
delta map.  `limits` is the mapping returned by `get_tenant_quotas` (defined on
the catalog's resource kinds; only those values are consulted). -/
def make_reservation (resources : List String) (limits : String → Int)
    (tenant : String) (deltas : DeltaMap) (ttl : Nat) (st : QuotaState) :
    Except (List String) Reservation × QuotaState :=
  let st1 := remove_expired_reservations st tenant
  let overs := over_limit_resources resources limits tenant deltas st1
  if overs = [] then
    let created := create_reservation st1 tenant deltas ttl
    (.ok created.1, created.2)
  else
    (.error (overs.insertionSort strle), st)

/-- `DbQuotaNoLockDriver.cancel_reservation(context, reservation_id)`:
`quota_api.remove_reservation(context, reservation_id, set_dirty=False)`. -/
def cancel_reservation (st : QuotaState) (rid : Nat) : QuotaState :=
  remove_reservation st rid false

/-- An empty store at time zero: no reservations, no committed resources, no
dirty marks. -/
def quotaState0 : QuotaState := ⟨[], [], 0, 0, []⟩

/-! Order-theoretic facts about the sort order `strle`. -/

theorem lexLe_total : ∀ a b : List Char, lexLe a b = true ∨ lexLe b a = true := by
  intro a
  induction a with
  | nil => intro b; left; rfl
  | cons x xs ih =>
    intro b
    cases b with
    | nil => right; rfl
    | cons y ys =>
      rcases lt_trichotomy x y with h | h | h
      · left; simp [lexLe, h]
      · subst h
        rcases ih ys with h2 | h2
        · left; simp [lexLe, lt_irrefl, h2]
        · right; simp [lexLe, lt_irrefl, h2]
      · right; simp [lexLe, h]

theorem lexLe_trans :
    ∀ a b c : List Char, lexLe a b = true → lexLe b c = true → lexLe a c = true := by
  intro a
  induction a with
  | nil => intro b c _ _; rfl
  | cons x xs ih =>
    intro b c hab hbc
    cases b with
    | nil => simp [lexLe] at hab
    | cons y ys =>
      cases c with
      | nil => simp [lexLe] at hbc
      | cons z zs =>
        rcases lt_trichotomy x y with hxy | hxy | hxy
        · rcases lt_trichotomy y z with hyz | hyz | hyz
          · simp [lexLe, hxy.trans hyz]
          · subst hyz; simp [lexLe, hxy]
          · simp [lexLe, asymm hyz, hyz] at hbc
        · subst hxy
          simp [lexLe, lt_irrefl] at hab
          rcases lt_trichotomy x z with hxz | hxz | hxz
          · simp [lexLe, hxz]
          · subst hxz
            simp [lexLe, lt_irrefl] at hbc ⊢
            exact ih ys zs hab hbc
          · simp [lexLe, asymm hxz, hxz] at hbc
        · simp [lexLe, asymm hxy, hxy] at hab

theorem lexLe_antisymm :
    ∀ a b : List Char, lexLe a b = true → lexLe b a = true → a = b := by
  intro a
  induction a with
  | nil =>
    intro b hab hba
    cases b with
    | nil => rfl
    | cons y ys => simp [lexLe] at hba
  | cons x xs ih =>
    intro b hab hba
    cases b with
    | nil => simp [lexLe] at hab
    | cons y ys =>
      rcases lt_trichotomy x y with h | h | h
      · simp [lexLe, asymm h, h] at hba
      · subst h
        simp [lexLe, lt_irrefl] at hab hba
        rw [ih ys hab hba]
      · simp [lexLe, asymm h, h] at hab

theorem strle_total (a b : String) : strle a b ∨ strle b a := lexLe_total a.data b.data

theorem strle_trans {a b c : String} (h1 : strle a b) (h2 : strle b c) : strle a c :=
  lexLe_trans a.data b.data c.data h1 h2

theorem strle_antisymm {a b : String} (h1 : strle a b) (h2 : strle b a) : a = b := by
  have hd := lexLe_antisymm a.data b.data h1 h2
  cases a
  cases b
  exact congrArg String.mk hd

/-! Helper lemmas about lookups, filters, counting and the over-limit list. -/

theorem lookup_mem_keys :
    ∀ {l : DeltaMap} {r : String} {d : Nat}, l.lookup r = some d → r ∈ l.map Prod.fst := by
  intro l
  induction l with
  | nil => intro r d h; simp [List.lookup] at h
  | cons p ps ih =>
    intro r d h
    obtain ⟨k, v⟩ := p
    rw [List.lookup_cons] at h
    split at h
    · rename_i hb
      simp only [List.map_cons, List.mem_cons]
      left
      exact eq_of_beq hb
    · exact List.mem_cons_of_mem _ (ih h)

theorem lookup_filter_ne :
    ∀ (l : DeltaMap) {a r : String}, a ≠ r →
      (l.filter fun p => !(p.1 == r)).lookup a = l.lookup a := by
  intro l
  induction l with
  | nil => intro a r _; rfl
  | cons p ps ih =>
    intro a r h
    obtain ⟨k, v⟩ := p
    by_cases hk : k = r
    · subst hk
      rw [List.filter_cons_of_neg (by simp), List.lookup_cons]
      have : (a == k) = false := beq_false_of_ne h
      rw [this]
      exact ih h
    · rw [List.filter_cons_of_pos (by simpa using hk), List.lookup_cons, List.lookup_cons]
      by_cases ha : a = k
      · subst ha; rw [beq_self_eq_true]
      · rw [beq_false_of_ne ha]
        exact ih h

theorem lookup_eq_of_perm :
    ∀ {l₁ l₂ : DeltaMap}, l₁.Perm l₂ → (l₁.map Prod.fst).Nodup →
      ∀ a : String, l₁.lookup a = l₂.lookup a := by
  intro l₁ l₂ h
  induction h with
  | nil => intro _ _; rfl
  | cons x h ih =>
    intro nd a
    obtain ⟨k, v⟩ := x
    rw [List.lookup_cons, List.lookup_cons]
    split
    · rfl
    · exact ih (by simpa using nd.of_cons) a
  | swap x y l =>
    intro nd a
    obtain ⟨k₁, v₁⟩ := x
    obtain ⟨k₂, v₂⟩ := y
    have hne : k₂ ≠ k₁ := by
      simp only [List.map_cons, List.nodup_cons, List.mem_cons] at nd
      exact fun h => nd.1 (Or.inl h)
    rw [List.lookup_cons, List.lookup_cons, List.lookup_cons, List.lookup_cons]
    by_cases hb2 : (a == k₂) = true
    · have hb1 : (a == k₁) = false := beq_false_of_ne ((eq_of_beq hb2) ▸ hne)
      rw [hb1, hb2]
    · rw [Bool.not_eq_true] at hb2
      rw [hb2]
  | trans h₁ h₂ ih₁ ih₂ =>
    intro nd a
    have nd₂ : (List.map Prod.fst _).Nodup := (h₁.map Prod.fst).nodup nd
    exact (ih₁ nd a).trans (ih₂ nd₂ a)

theorem mem_over_limit_resources_iff {resources : List String} {limits : String → Int}
    {tenant : String} {deltas : DeltaMap} {st : QuotaState} {r : String} :
    r ∈ over_limit_resources resources limits tenant deltas st ↔
      r ∈ deltas.map Prod.fst ∧ r ∈ resources ∧ 0 ≤ limits r ∧
        limits r < (count st tenant r : Int) + ((deltas.lookup r).getD 0 : Int) := by
  simp only [over_limit_resources, List.mem_filter, Bool.and_eq_true, decide_eq_true_eq,
    Bool.not_eq_true', List.contains, List.elem_eq_mem, decide_eq_false_iff_not,
    List.elem_iff]
  constructor
  · rintro ⟨⟨hk, hul⟩, hres, hlt⟩
    exact ⟨hk, hres, not_lt.mp (fun h => hul ⟨hres, h⟩), hlt⟩
  · rintro ⟨hk, hres, hge, hlt⟩
    exact ⟨⟨hk, fun h => absurd h.2 (not_lt.mpr hge)⟩, hres, hlt⟩

theorem reservedSum_remove_expired (st : QuotaState) (tenant res : String) :
    reservedSum (remove_expired_reservations st tenant).reservations tenant res st.now =
      reservedSum st.reservations tenant res st.now := by
  unfold reservedSum remove_expired_reservations
  rw [List.filter_filter]
  have h : ∀ rv ∈ st.reservations,
      ((rv.tenant == tenant && decide (st.now < rv.expiry)) &&
          !(rv.tenant == tenant && decide (rv.expiry ≤ st.now))) =
        (rv.tenant == tenant && decide (st.now < rv.expiry)) := by
    intro rv _
    by_cases ht : rv.tenant = tenant
    · by_cases he : st.now < rv.expiry
      · simp [ht, he, Nat.not_le.mpr he]
      · simp [ht, he]
    · simp [ht]
  rw [List.filter_congr h]

theorem count_remove_expired (st : QuotaState) (tenant res : String) :
    count (remove_expired_reservations st tenant) tenant res = count st tenant res := by
  show (st.committed.lookup (tenant, res)).getD 0 +
      reservedSum (remove_expired_reservations st tenant).reservations tenant res st.now = _
  rw [reservedSum_remove_expired]
  rfl

theorem make_reservation_of_no_overs {resources : List String} {limits : String → Int}
    {tenant : String} {deltas : DeltaMap} {ttl : Nat} {st : QuotaState}
    (h : over_limit_resources resources limits tenant deltas
        (remove_expired_reservations st tenant) = []) :
    make_reservation resources limits tenant deltas ttl st =
      (.ok ⟨st.nextId, tenant, deltas, st.now + ttl⟩,
        { st with
          reservations := Reservation.mk st.nextId tenant deltas (st.now + ttl) ::
            (remove_expired_reservations st tenant).reservations,
          nextId := st.nextId + 1 }) := by
  simp only [make_reservation]
  rw [if_pos h]
  rfl

theorem make_reservation_of_overs {resources : List String} {limits : String → Int}
    {tenant : String} {deltas : DeltaMap} {ttl : Nat} {st : QuotaState}
    (h : over_limit_resources resources limits tenant deltas
        (remove_expired_reservations st tenant) ≠ []) :
    make_reservation resources limits tenant deltas ttl st =
      (.error ((over_limit_resources resources limits tenant deltas
          (remove_expired_reservations st tenant)).insertionSort strle), st) := by
  simp only [make_reservation]
  rw [if_neg h]

theorem make_reservation_error_inv {resources : List String} {limits : String → Int}
    {tenant : String} {deltas : DeltaMap} {ttl : Nat} {st : QuotaState} {l : List String}
    (h : (make_reservation resources limits tenant deltas ttl st).1 = .error l) :
    over_limit_resources resources limits tenant deltas
        (remove_expired_reservations st tenant) ≠ [] ∧
      l = (over_limit_resources resources limits tenant deltas
        (remove_expired_reservations st tenant)).insertionSort strle := by
  by_cases hov : over_limit_resources resources limits tenant deltas
      (remove_expired_reservations st tenant) = []
  · rw [make_reservation_of_no_overs hov] at h
    exact absurd h (by simp)
  · rw [make_reservation_of_overs hov] at h
    exact ⟨hov, (Except.error.inj h).symm⟩

theorem make_reservation_ok_inv {resources : List String} {limits : String → Int}
    {tenant : String} {deltas : DeltaMap} {ttl : Nat} {st : QuotaState} {rv : Reservation}
    (h : (make_reservation resources limits tenant deltas ttl st).1 = .ok rv) :
    over_limit_resources resources limits tenant deltas
        (remove_expired_reservations st tenant) = [] ∧
      rv = ⟨st.nextId, tenant, deltas, st.now + ttl⟩ := by
  by_cases hov : over_limit_resources resources limits tenant deltas
      (remove_expired_reservations st tenant) = []
  · rw [make_reservation_of_no_overs hov] at h
    exact ⟨hov, (Except.ok.inj h).symm⟩
  · rw [make_reservation_of_overs hov] at h
    exact absurd h (by simp)

theorem map_fst_filter_key (l : DeltaMap) (r : String) :
    (l.filter fun p => !(p.1 == r)).map Prod.fst =
      (l.map Prod.fst).filter fun x => !(x == r) := by
  induction l with
  | nil => rfl
  | cons p ps ih =>
    by_cases hk : (p.1 == r) = true
    · rw [List.filter_cons_of_neg (by simp [hk]), List.map_cons,
        List.filter_cons_of_neg (by simp [hk]), ih]
    · rw [List.filter_cons_of_pos (by simp [Bool.not_eq_true] at hk ⊢; exact hk),
        List.map_cons, List.map_cons,
        List.filter_cons_of_pos (by simp [Bool.not_eq_true] at hk ⊢; exact hk), ih]

/-! Claim theorems. -/

/-- C1, counterexample: with catalog resources "gold" (limit −1, unlimited) and
"silver" (limit 10), a request for 5 gold and 1 silver succeeds, and the
persisted reservation's stored delta map still contains the unlimited
resource "gold" with its delta 5 — the unlimited kinds are not omitted from
the stored delta map, contrary to the claim. -/
theorem make_reservation_keeps_unlimited_in_stored_map :
    ((make_reservation ["gold", "silver"] (fun r => if r = "gold" then -1 else 10) "t"
        [("gold", 5), ("silver", 1)] 120 quotaState0).1 =
      .ok ⟨0, "t", [("gold", 5), ("silver", 1)], 120⟩) ∧
    ((if ("gold" : String) = "gold" then (-1 : Int) else 10) < 0) ∧
    (Reservation.deltas ⟨0, "t", [("gold", 5), ("silver", 1)], 120⟩).lookup "gold" =
      some 5 := by
  refine ⟨rfl, by decide, rfl⟩

/-- C1, amended: every reservation persisted by a successful `make_reservation`
stores the requested delta map verbatim — including the resource kinds whose
limit is negative (unlimited) — and the created row is in the resulting
store. -/
theorem make_reservation_persists_full_delta_map
    (resources : List String) (limits : String → Int) (tenant : String)
    (deltas : DeltaMap) (ttl : Nat) (st : QuotaState) (rv : Reservation)
    (h : (make_reservation resources limits tenant deltas ttl st).1 = .ok rv) :
    rv.deltas = deltas ∧
      rv ∈ (make_reservation resources limits tenant deltas ttl st).2.reservations := by
  obtain ⟨hov, hrv⟩ := make_reservation_ok_inv h
  subst hrv
  rw [make_reservation_of_no_overs hov]
  exact ⟨rfl, List.mem_cons_self _ _⟩

/-- C1, witness for the amended theorem at a concrete input. -/
theorem make_reservation_persists_full_delta_map_witness :
    (Reservation.mk 0 "t" [("gold", 5), ("silver", 1)] 120).deltas =
        [("gold", 5), ("silver", 1)] ∧
      Reservation.mk 0 "t" [("gold", 5), ("silver", 1)] 120 ∈
        (make_reservation ["gold", "silver"] (fun r => if r = "gold" then -1 else 10) "t"
          [("gold", 5), ("silver", 1)] 120 quotaState0).2.reservations :=
  make_reservation_persists_full_delta_map ["gold", "silver"]
    (fun r => if r = "gold" then -1 else 10) "t" [("gold", 5), ("silver", 1)] 120
    quotaState0 ⟨0, "t", [("gold", 5), ("silver", 1)], 120⟩ rfl

/-- C2: for a limited resource kind `r` with a counting capability, the limit
is inclusive: when `used_and_reserved + delta` equals the limit exactly, `r` is
not recorded over limit and — absent other over-limit resources — the
reservation succeeds; when the limit is exceeded by at least 1,
`make_reservation` fails with OverQuota naming `r`. -/
theorem make_reservation_quota_boundary
    (resources : List String) (limits : String → Int) (tenant : String)
    (deltas : DeltaMap) (ttl : Nat) (st : QuotaState) (r : String) (d : Nat)
    (hd : deltas.lookup r = some d) (hres : r ∈ resources) (hlim : 0 ≤ limits r) :
    (limits r = (count (remove_expired_reservations st tenant) tenant r : Int) + (d : Int) →
      r ∉ over_limit_resources resources limits tenant deltas
          (remove_expired_reservations st tenant) ∧
        ((∀ x ∈ over_limit_resources resources limits tenant deltas
            (remove_expired_reservations st tenant), x = r) →
          ∃ rv, (make_reservation resources limits tenant deltas ttl st).1 = .ok rv)) ∧
    (limits r < (count (remove_expired_reservations st tenant) tenant r : Int) + (d : Int) →
      ∃ l, (make_reservation resources limits tenant deltas ttl st).1 = .error l ∧
        r ∈ l) := by
  constructor
  · intro heq
    have hnot : r ∉ over_limit_resources resources limits tenant deltas
        (remove_expired_reservations st tenant) := by
      intro hmem
      rw [mem_over_limit_resources_iff] at hmem
      rw [hd] at hmem
      exact absurd hmem.2.2.2 (by rw [heq]; exact lt_irrefl _)
    refine ⟨hnot, fun hall => ?_⟩
    have hov : over_limit_resources resources limits tenant deltas
        (remove_expired_reservations st tenant) = [] := by
      rw [List.eq_nil_iff_forall_not_mem]
      intro x hx
      exact hnot ((hall x hx) ▸ hx)
    exact ⟨_, by rw [make_reservation_of_no_overs hov]⟩
  · intro hlt
    have hmem : r ∈ over_limit_resources resources limits tenant deltas
        (remove_expired_reservations st tenant) := by
      rw [mem_over_limit_resources_iff, hd]
      exact ⟨lookup_mem_keys hd, hres, hlim, hlt⟩
    have hov : over_limit_resources resources limits tenant deltas
        (remove_expired_reservations st tenant) ≠ [] := by
      intro hnil
      rw [hnil] at hmem
      exact absurd hmem (List.not_mem_nil r)
    refine ⟨_, by rw [make_reservation_of_overs hov], ?_⟩
    rw [List.mem_insertionSort]
    exact hmem

/-- C2, witness: limit 5 on "ports", empty store, delta 5 — the boundary case
succeeds. -/
theorem make_reservation_quota_boundary_witness :
    ∃ rv, (make_reservation ["ports"] (fun _ => 5) "t" [("ports", 5)] 120
      quotaState0).1 = .ok rv :=
  ((make_reservation_quota_boundary ["ports"] (fun _ => 5) "t" [("ports", 5)] 120
      quotaState0 "ports" 5 rfl (by decide) (by decide)).1 (by decide)).2 (by decide)

/-- C3: whenever `make_reservation` fails with OverQuota, the transaction rolls
back and the resulting store is exactly the initial store: no reservation is
created for any requested kind and no partial state is persisted. -/
theorem make_reservation_overquota_leaves_store_unchanged
    (resources : List String) (limits : String → Int) (tenant : String)
    (deltas : DeltaMap) (ttl : Nat) (st : QuotaState) (l : List String)
    (h : (make_reservation resources limits tenant deltas ttl st).1 = .error l) :
    (make_reservation resources limits tenant deltas ttl st).2 = st := by
  obtain ⟨hov, -⟩ := make_reservation_error_inv h
  rw [make_reservation_of_overs hov]

/-- C3, witness: a two-kind request where "ports" exceeds its zero limit fails
and leaves the empty store unchanged. -/
theorem make_reservation_overquota_leaves_store_unchanged_witness :
    (make_reservation ["ports", "nets"] (fun _ => 0) "t" [("ports", 1), ("nets", 0)]
      120 quotaState0).2 = quotaState0 :=
  make_reservation_overquota_leaves_store_unchanged ["ports", "nets"] (fun _ => 0) "t"
    [("ports", 1), ("nets", 0)] 120 quotaState0 ["ports"] rfl

/-- C4: a catalog resource kind with a negative limit is never recorded over
limit and never named in an OverQuota failure, whatever its delta and the
current usage; a request whose kinds are all unlimited succeeds. -/
theorem make_reservation_unlimited_passthrough
    (resources : List String) (limits : String → Int) (tenant : String)
    (deltas : DeltaMap) (ttl : Nat) (st : QuotaState) :
    (∀ r, r ∈ resources → limits r < 0 →
      r ∉ over_limit_resources resources limits tenant deltas
          (remove_expired_reservations st tenant) ∧
        ∀ l, (make_reservation resources limits tenant deltas ttl st).1 = .error l →
          r ∉ l) ∧
    ((∀ r ∈ deltas.map Prod.fst, r ∈ resources ∧ limits r < 0) →
      ∃ rv, (make_reservation resources limits tenant deltas ttl st).1 = .ok rv) := by
  constructor
  · intro r _ hneg
    have hnot : r ∉ over_limit_resources resources limits tenant deltas
        (remove_expired_reservations st tenant) := by
      intro hmem
      rw [mem_over_limit_resources_iff] at hmem
      exact absurd hneg (not_lt.mpr hmem.2.2.1)
    refine ⟨hnot, fun l hl => ?_⟩
    obtain ⟨-, hsort⟩ := make_reservation_error_inv hl
    rw [hsort, List.mem_insertionSort]
    exact hnot
  · intro hall
    have hov : over_limit_resources resources limits tenant deltas
        (remove_expired_reservations st tenant) = [] := by
      rw [List.eq_nil_iff_forall_not_mem]
      intro x hx
      rw [mem_over_limit_resources_iff] at hx
      exact absurd (hall x hx.1).2 (not_lt.mpr hx.2.2.1)
    exact ⟨_, by rw [make_reservation_of_no_overs hov]⟩

/-- C4, witness: "gold" has limit −1; a request for a million gold on an empty
store succeeds. -/
theorem make_reservation_unlimited_passthrough_witness :
    ∃ rv, (make_reservation ["gold"] (fun _ => -1) "t" [("gold", 1000000)] 120
      quotaState0).1 = .ok rv :=
  (make_reservation_unlimited_passthrough ["gold"] (fun _ => -1) "t"
    [("gold", 1000000)] 120 quotaState0).2 (by decide)

/-- C5, counterexample: requesting 1 unit of the unlimited resource "gold"
(limit −1) on an empty store succeeds, yet
`committed + reserved + delta ≤ limit` fails for that requested resource
(0 + 0 + 1 ≤ −1 is false), so the claimed invariant does not hold for every
requested resource. -/
theorem make_reservation_invariant_counterexample :
    ((make_reservation ["gold"] (fun _ => -1) "t" [("gold", 1)] 120 quotaState0).1 =
      .ok ⟨0, "t", [("gold", 1)], 120⟩) ∧
    ¬(((quotaState0.committed.lookup ("t", "gold")).getD 0 : Int) +
        (reservedSum quotaState0.reservations "t" "gold" quotaState0.now : Int) + 1 ≤
      (fun _ : String => (-1 : Int)) "gold") := by
  exact ⟨rfl, by decide⟩

/-- C5, amended: the creation-time invariant holds for every requested resource
kind that is limited (non-negative limit) and has a counting capability: on
success, `committed + non-expired reserved + requested_delta ≤ limit`, as
observed inside the transaction.  (Requested kinds that are unlimited or
uncountable are not checked and can violate the inequality.) -/
theorem make_reservation_checked_invariant
    (resources : List String) (limits : String → Int) (tenant : String)
    (deltas : DeltaMap) (ttl : Nat) (st : QuotaState) (rv : Reservation)
    (r : String) (d : Nat)
    (h : (make_reservation resources limits tenant deltas ttl st).1 = .ok rv)
    (hd : deltas.lookup r = some d) (hres : r ∈ resources) (hlim : 0 ≤ limits r) :
    ((st.committed.lookup (tenant, r)).getD 0 : Int) +
        (reservedSum st.reservations tenant r st.now : Int) + (d : Int) ≤ limits r := by
  obtain ⟨hov, -⟩ := make_reservation_ok_inv h
  have hnot : r ∉ over_limit_resources resources limits tenant deltas
      (remove_expired_reservations st tenant) := by
    rw [hov]
    exact List.not_mem_nil r
  rw [mem_over_limit_resources_iff, hd] at hnot
  push_neg at hnot
  have hle := hnot (lookup_mem_keys hd) hres hlim
  rw [count_remove_expired] at hle
  have hcount : count st tenant r =
      (st.committed.lookup (tenant, r)).getD 0 +
        reservedSum st.reservations tenant r st.now := rfl
  rw [hcount] at hle
  simp only [Option.getD_some] at hle
  push_cast at hle
  omega

/-- C5, witness for the amended theorem: limit 5 on "ports", delta 3 on an
empty store; the reservation succeeds and 0 + 0 + 3 ≤ 5. -/
theorem make_reservation_checked_invariant_witness :
    ((quotaState0.committed.lookup ("t", "ports")).getD 0 : Int) +
        (reservedSum quotaState0.reservations "t" "ports" quotaState0.now : Int) +
        ((3 : Nat) : Int) ≤ (fun _ : String => (5 : Int)) "ports" :=
  make_reservation_checked_invariant ["ports"] (fun _ => 5) "t" [("ports", 3)] 120
    quotaState0 ⟨0, "t", [("ports", 3)], 120⟩ "ports" 3 rfl rfl (by decide) (by decide)

theorem over_limit_resources_perm (resources : List String) (limits : String → Int)
    (tenant : String) (st : QuotaState) {deltas deltas' : DeltaMap}
    (hperm : deltas.Perm deltas') (nd : (deltas.map Prod.fst).Nodup) :
    (over_limit_resources resources limits tenant deltas st).Perm
      (over_limit_resources resources limits tenant deltas' st) := by
  unfold over_limit_resources
  have hlk : ∀ a, deltas.lookup a = deltas'.lookup a := lookup_eq_of_perm hperm nd
  have hp : (fun r => resources.contains r &&
        decide (limits r < (count st tenant r : Int) + ((deltas'.lookup r).getD 0 : Int))) =
      (fun r => resources.contains r &&
        decide (limits r < (count st tenant r : Int) + ((deltas.lookup r).getD 0 : Int))) := by
    funext x
    rw [hlk x]
  rw [hp]
  exact List.Perm.filter _ (List.Perm.filter _ (hperm.map Prod.fst))

/-- C6: an OverQuota failure lists exactly the over-limit resource kinds,
sorted in the code-point (alphabetical) string order, and the list does not
depend on the order in which the delta map's entries are iterated: any
permutation of the request produces the identical error list. -/
theorem make_reservation_overquota_sorted_deterministic
    (resources : List String) (limits : String → Int) (tenant : String)
    (deltas : DeltaMap) (ttl : Nat) (st : QuotaState) (l : List String)
    (h : (make_reservation resources limits tenant deltas ttl st).1 = .error l) :
    l.Sorted strle ∧
    (∀ x, x ∈ l ↔ x ∈ over_limit_resources resources limits tenant deltas
        (remove_expired_reservations st tenant)) ∧
    (∀ deltas' : DeltaMap, deltas.Perm deltas' → (deltas.map Prod.fst).Nodup →
      (make_reservation resources limits tenant deltas' ttl st).1 = .error l) := by
  obtain ⟨hov, hsort⟩ := make_reservation_error_inv h
  haveI : IsTotal String strle := ⟨strle_total⟩
  haveI : IsTrans String strle := ⟨fun _ _ _ h1 h2 => strle_trans h1 h2⟩
  haveI : IsAntisymm String strle := ⟨fun _ _ h1 h2 => strle_antisymm h1 h2⟩
  refine ⟨?_, ?_, ?_⟩
  · rw [hsort]
    exact List.sorted_insertionSort strle _
  · intro x
    rw [hsort, List.mem_insertionSort]
  · intro deltas' hperm nd
    have hp := over_limit_resources_perm resources limits tenant
      (remove_expired_reservations st tenant) hperm nd
    have hov' : over_limit_resources resources limits tenant deltas'
        (remove_expired_reservations st tenant) ≠ [] := by
      intro hnil
      rw [hnil] at hp
      exact hov hp.eq_nil
    have hres' : (make_reservation resources limits tenant deltas' ttl st).1 =
        .error ((over_limit_resources resources limits tenant deltas'
          (remove_expired_reservations st tenant)).insertionSort strle) := by
      rw [make_reservation_of_overs hov']
    have heq : (over_limit_resources resources limits tenant deltas'
          (remove_expired_reservations st tenant)).insertionSort strle =
        (over_limit_resources resources limits tenant deltas
          (remove_expired_reservations st tenant)).insertionSort strle :=
      List.eq_of_perm_of_sorted
        (((List.perm_insertionSort strle _).trans hp.symm).trans
          (List.perm_insertionSort strle _).symm)
        (List.sorted_insertionSort strle _) (List.sorted_insertionSort strle _)
    rw [hres', heq, hsort]

/-- C6, witness: all of "a", "b", "c" over their zero limits, requested in the
order c, a, b — the failure lists them sorted, and the permuted request
[a, b, c] yields the identical error list. -/
theorem make_reservation_overquota_sorted_deterministic_witness :
    (["a", "b", "c"] : List String).Sorted strle ∧
      (make_reservation ["a", "b", "c"] (fun _ => 0) "t"
        [("a", 1), ("b", 1), ("c", 1)] 120 quotaState0).1 = .error ["a", "b", "c"] :=
  ⟨(make_reservation_overquota_sorted_deterministic ["a", "b", "c"] (fun _ => 0) "t"
      [("c", 1), ("a", 1), ("b", 1)] 120 quotaState0 ["a", "b", "c"] rfl).1,
    (make_reservation_overquota_sorted_deterministic ["a", "b", "c"] (fun _ => 0) "t"
      [("c", 1), ("a", 1), ("b", 1)] 120 quotaState0 ["a", "b", "c"] rfl).2.2
      [("a", 1), ("b", 1), ("c", 1)] (by decide) (by decide)⟩

theorem over_limit_resources_erase_uncounted {resources : List String}
    (limits : String → Int) (tenant : String) (st : QuotaState) (deltas : DeltaMap)
    {r : String} (hr : r ∉ resources) :
    over_limit_resources resources limits tenant
        (deltas.filter fun p => !(p.1 == r)) st =
      over_limit_resources resources limits tenant deltas st := by
  simp only [over_limit_resources]
  rw [map_fst_filter_key]
  have hstep1 :
      ((deltas.map Prod.fst).filter fun x => !(x == r)).filter
          (fun x => !(resources.filter fun s => limits s < 0).contains x) =
        (((deltas.map Prod.fst).filter
          (fun x => !(resources.filter fun s => limits s < 0).contains x)).filter
            fun x => !(x == r)) := List.filter_comm _ _ _
  rw [hstep1]
  have hstep2 : ∀ x ∈ ((deltas.map Prod.fst).filter
        (fun x => !(resources.filter fun s => limits s < 0).contains x)).filter
          fun x => !(x == r),
      (resources.contains x &&
          decide (limits x < (count st tenant x : Int) +
            (((deltas.filter fun p => !(p.1 == r)).lookup x).getD 0 : Int))) =
        (resources.contains x &&
          decide (limits x < (count st tenant x : Int) +
            ((deltas.lookup x).getD 0 : Int))) := by
    intro x hx
    have hxr : x ≠ r := by
      rw [List.mem_filter] at hx
      simpa using hx.2
    rw [lookup_filter_ne deltas hxr]
  rw [List.filter_congr hstep2, List.filter_filter]
  refine List.filter_congr ?_
  intro x _
  by_cases hxr : x = r
  · subst hxr
    have hc : resources.contains x = false := by
      simp only [List.contains, List.elem_eq_mem, decide_eq_false_iff_not]
      exact hr
    rw [hc]
    simp
  · have : (!(x == r)) = true := by simpa using hxr
    rw [this, Bool.and_true]

/-- C7: a requested resource kind `r` with no counting capability in the
catalog never causes a failure: it is never recorded over limit, and the
outcome of the request (OverQuota with a given list, or success) is exactly
the outcome of the same request with `r`'s entries removed. -/
theorem make_reservation_skips_uncounted_kinds
    (resources : List String) (limits : String → Int) (tenant : String)
    (deltas : DeltaMap) (ttl : Nat) (st : QuotaState) (r : String)
    (hr : r ∉ resources) :
    (r ∉ over_limit_resources resources limits tenant deltas
        (remove_expired_reservations st tenant)) ∧
    (∀ l, (make_reservation resources limits tenant deltas ttl st).1 = .error l ↔
      (make_reservation resources limits tenant
        (deltas.filter fun p => !(p.1 == r)) ttl st).1 = .error l) ∧
    ((∃ rv, (make_reservation resources limits tenant deltas ttl st).1 = .ok rv) ↔
      ∃ rv, (make_reservation resources limits tenant
        (deltas.filter fun p => !(p.1 == r)) ttl st).1 = .ok rv) := by
  have hoeq := over_limit_resources_erase_uncounted limits tenant
    (remove_expired_reservations st tenant) deltas hr
  refine ⟨?_, ?_, ?_⟩
  · intro hmem
    rw [mem_over_limit_resources_iff] at hmem
    exact hr hmem.2.1
  · intro l
    by_cases hov : over_limit_resources resources limits tenant deltas
        (remove_expired_reservations st tenant) = []
    · rw [make_reservation_of_no_overs hov,
        make_reservation_of_no_overs (hoeq.trans hov)]
      simp
    · rw [make_reservation_of_overs hov,
        make_reservation_of_overs (fun hnil => hov ((hoeq.symm.trans hnil)))]
      simp [hoeq]
  · by_cases hov : over_limit_resources resources limits tenant deltas
        (remove_expired_reservations st tenant) = []
    · rw [make_reservation_of_no_overs hov,
        make_reservation_of_no_overs (hoeq.trans hov)]
      constructor
      · intro
        exact ⟨_, rfl⟩
      · intro
        exact ⟨_, rfl⟩
    · rw [make_reservation_of_overs hov,
        make_reservation_of_overs (fun hnil => hov ((hoeq.symm.trans hnil)))]
      simp

/-- C7, witness: "mystery" is not in the catalog; requesting 99 of it alongside
1 "ports" (limit 5) neither marks it over limit nor changes the outcome
relative to the request without it. -/
theorem make_reservation_skips_uncounted_kinds_witness :
    ("mystery" ∉ over_limit_resources ["ports"] (fun _ => 5) "t"
        [("mystery", 99), ("ports", 1)] (remove_expired_reservations quotaState0 "t")) ∧
    ((∃ rv, (make_reservation ["ports"] (fun _ => 5) "t" [("mystery", 99), ("ports", 1)]
        120 quotaState0).1 = .ok rv) ↔
      ∃ rv, (make_reservation ["ports"] (fun _ => 5) "t"
        ([("mystery", 99), ("ports", 1)].filter fun p => !(p.1 == "mystery"))
        120 quotaState0).1 = .ok rv) :=
  ⟨(make_reservation_skips_uncounted_kinds ["ports"] (fun _ => 5) "t"
      [("mystery", 99), ("ports", 1)] 120 quotaState0 "mystery" (by decide)).1,
    (make_reservation_skips_uncounted_kinds ["ports"] (fun _ => 5) "t"
      [("mystery", 99), ("ports", 1)] 120 quotaState0 "mystery" (by decide)).2.2⟩

/-- C8: `make_reservation` purges the tenant's expired reservations before
counting: an expired reservation of the tenant is deleted by the purge, its
presence in the initial store does not change the outcome, and the purged
store used for counting contains no expired reservation of the tenant. -/
theorem make_reservation_purges_expired_before_counting
    (resources : List String) (limits : String → Int) (tenant : String)
    (deltas : DeltaMap) (ttl : Nat) (st : QuotaState) (rv : Reservation)
    (hrt : rv.tenant = tenant) (hex : rv.expiry ≤ st.now) :
    (remove_expired_reservations { st with reservations := rv :: st.reservations } tenant =
      remove_expired_reservations st tenant) ∧
    ((make_reservation resources limits tenant deltas ttl
        { st with reservations := rv :: st.reservations }).1 =
      (make_reservation resources limits tenant deltas ttl st).1) ∧
    (∀ q ∈ (remove_expired_reservations st tenant).reservations,
      q.tenant = tenant → st.now < q.expiry) := by
  have hpurge : remove_expired_reservations
      { st with reservations := rv :: st.reservations } tenant =
        remove_expired_reservations st tenant := by
    simp only [remove_expired_reservations]
    rw [List.filter_cons_of_neg (by simp [hrt, hex])]
  refine ⟨hpurge, ?_, ?_⟩
  · simp only [make_reservation]
    rw [hpurge]
    rw [apply_ite Prod.fst, apply_ite Prod.fst]
  · intro q hq hqt
    have hq' : q ∈ st.reservations.filter
        (fun a => !(a.tenant == tenant && decide (a.expiry ≤ st.now))) := hq
    rw [List.mem_filter] at hq'
    have := hq'.2
    simp only [hqt, beq_self_eq_true, Bool.true_and, Bool.not_eq_eq_eq_not, Bool.not_true,
      decide_eq_false_iff_not, Nat.not_le] at this
    exact this

/-- C8, witness: a reservation for the tenant expired at time 5 in a store at
time 10 is purged, and the purged store has no expired tenant reservations. -/
theorem make_reservation_purges_expired_before_counting_witness :
    (remove_expired_reservations
        { (⟨[], [], 10, 0, []⟩ : QuotaState) with
          reservations := Reservation.mk 7 "t" [("ports", 3)] 5 ::
            (⟨[], [], 10, 0, []⟩ : QuotaState).reservations } "t" =
      remove_expired_reservations (⟨[], [], 10, 0, []⟩ : QuotaState) "t") ∧
    ((make_reservation ["ports"] (fun _ => 5) "t" [("ports", 1)] 120
        { (⟨[], [], 10, 0, []⟩ : QuotaState) with
          reservations := Reservation.mk 7 "t" [("ports", 3)] 5 ::
            (⟨[], [], 10, 0, []⟩ : QuotaState).reservations }).1 =
      (make_reservation ["ports"] (fun _ => 5) "t" [("ports", 1)] 120
        (⟨[], [], 10, 0, []⟩ : QuotaState)).1) :=
  ⟨(make_reservation_purges_expired_before_counting ["ports"] (fun _ => 5) "t"
      [("ports", 1)] 120 ⟨[], [], 10, 0, []⟩ ⟨7, "t", [("ports", 3)], 5⟩ rfl
      (by decide)).1,
    (make_reservation_purges_expired_before_counting ["ports"] (fun _ => 5) "t"
      [("ports", 1)] 120 ⟨[], [], 10, 0, []⟩ ⟨7, "t", [("ports", 3)], 5⟩ rfl
      (by decide)).2.1⟩

/-- C9: cancelling a reservation is an idempotent no-op on anything but the
reservation itself: it never touches the dirty marks (or any other field of
the store), it deletes exactly the reservation with the given id, cancelling
twice equals cancelling once, and cancelling an absent id leaves the store
unchanged. -/
theorem cancel_reservation_idempotent_untracked (st : QuotaState) (rid : Nat) :
    ((cancel_reservation st rid).dirty = st.dirty ∧
      (cancel_reservation st rid).committed = st.committed ∧
      (cancel_reservation st rid).now = st.now ∧
      (cancel_reservation st rid).nextId = st.nextId) ∧
    (∀ rv ∈ (cancel_reservation st rid).reservations, rv.rid ≠ rid) ∧
    (∀ rv ∈ st.reservations, rv.rid ≠ rid →
      rv ∈ (cancel_reservation st rid).reservations) ∧
    cancel_reservation (cancel_reservation st rid) rid = cancel_reservation st rid ∧
    ((∀ rv ∈ st.reservations, rv.rid ≠ rid) → cancel_reservation st rid = st) := by
  refine ⟨⟨rfl, rfl, rfl, rfl⟩, ?_, ?_, ?_, ?_⟩
  · intro rv hm
    have hm' : rv ∈ st.reservations.filter fun a => !(a.rid == rid) := hm
    rw [List.mem_filter] at hm'
    simpa using hm'.2
  · intro rv hm hne
    show rv ∈ st.reservations.filter fun a => !(a.rid == rid)
    exact List.mem_filter.mpr ⟨hm, by simpa using hne⟩
  · show remove_reservation (remove_reservation st rid false) rid false =
      remove_reservation st rid false
    simp only [remove_reservation, if_neg (by simp : ¬(false = true))]
    rw [List.filter_filter, List.filter_congr (fun a _ => Bool.and_self _)]
  · intro hall
    show remove_reservation st rid false = st
    simp only [remove_reservation, if_neg (by simp : ¬(false = true))]
    rw [List.filter_eq_self.mpr (fun a ha => by simpa using hall a ha)]

/-- C9, witness: on a store holding reservation 1, cancelling 1 twice equals
cancelling once, and cancelling the absent id 99 is the identity. -/
theorem cancel_reservation_idempotent_untracked_witness :
    (cancel_reservation (cancel_reservation
        ⟨[⟨1, "t", [("ports", 1)], 10⟩], [], 0, 2, []⟩ 1) 1 =
      cancel_reservation ⟨[⟨1, "t", [("ports", 1)], 10⟩], [], 0, 2, []⟩ 1) ∧
    (cancel_reservation (⟨[⟨1, "t", [("ports", 1)], 10⟩], [], 0, 2, []⟩ : QuotaState) 99 =
      ⟨[⟨1, "t", [("ports", 1)], 10⟩], [], 0, 2, []⟩) :=
  ⟨(cancel_reservation_idempotent_untracked
      ⟨[⟨1, "t", [("ports", 1)], 10⟩], [], 0, 2, []⟩ 1).2.2.2.1,
    (cancel_reservation_idempotent_untracked
      ⟨[⟨1, "t", [("ports", 1)], 10⟩], [], 0, 2, []⟩ 99).2.2.2.2 (by decide)⟩

/-- C10: a request whose kinds are each either unlimited (negative limit) or
absent from the catalog — including the empty request — never fails: it
creates and returns a reservation persisting the given delta map, which lands
in the resulting store. -/
theorem make_reservation_unchecked_request_succeeds
    (resources : List String) (limits : String → Int) (tenant : String)
    (deltas : DeltaMap) (ttl : Nat) (st : QuotaState)
    (h : ∀ r ∈ deltas.map Prod.fst, r ∈ resources → limits r < 0) :
    (make_reservation resources limits tenant deltas ttl st).1 =
      .ok ⟨st.nextId, tenant, deltas, st.now + ttl⟩ ∧
    Reservation.mk st.nextId tenant deltas (st.now + ttl) ∈
      (make_reservation resources limits tenant deltas ttl st).2.reservations := by
  have hov : over_limit_resources resources limits tenant deltas
      (remove_expired_reservations st tenant) = [] := by
    rw [List.eq_nil_iff_forall_not_mem]
    intro x hx
    rw [mem_over_limit_resources_iff] at hx
    exact absurd (h x hx.1 hx.2.1) (not_lt.mpr hx.2.2.1)
  rw [make_reservation_of_no_overs hov]
  exact ⟨rfl, List.mem_cons_self _ _⟩

/-- C10, witness: the empty delta request on an empty store succeeds with a
reservation storing the empty delta map. -/
theorem make_reservation_unchecked_request_succeeds_witness :
    (make_reservation ["ports"] (fun _ => 7) "t" [] 120 quotaState0).1 =
      .ok ⟨0, "t", [], 120⟩ ∧
    Reservation.mk 0 "t" [] 120 ∈
      (make_reservation ["ports"] (fun _ => 7) "t" [] 120 quotaState0).2.reservations :=
  make_reservation_unchecked_request_succeeds ["ports"] (fun _ => 7) "t" [] 120
    quotaState0 (by simp)
